import Mathlib

/-!
Shallow embedding of the prom-sync-API pipeline (src/prom_updater.py,
src/feed_parser.py, src/change_detector.py).

Modelling conventions:
* Python `float` values are modelled as exact rationals (ℚ); the feeds carry
  plain decimal literals, and no claim hinges on binary floating point.
* Python `int` is ℤ, container indices are ℕ.
* Python `Optional[str]` is `Option String`; a missing XML tag / attribute is
  `none`, an empty text is `some ""` (matching `findtext` / `get`).
* Library primitives (the XML tokenizer, `hashlib.md5`) are taken as inputs:
  an offer element is a pair of lookup functions (tag text, attribute), and
  the md5 hex digest of the serialized element is passed as a string.
* `float(s)` is modelled for plain decimal notation (optional sign, digits,
  optional fractional part) — the only forms the numeric feed fields use;
  anything else is unparsable, matching the `try/except` fallbacks.
-/

namespace PromSync

/-- Python whitespace characters stripped by `str.strip()` (ASCII part). -/
def isPySpace (c : Char) : Bool :=
  c = ' ' || c = '\t' || c = '\n' || c = '\x0d' || c = '\x0b' || c = '\x0c'

/-- Model of Python `s.strip()`: drop leading and trailing whitespace. -/
def pyStrip (s : String) : String :=
  ⟨((s.data.dropWhile isPySpace).reverse.dropWhile isPySpace).reverse⟩

/-- Model of Python `s.lower()` on ASCII strings. -/
def pyLower (s : String) : String :=
  ⟨s.data.map Char.toLower⟩

/-- Model of Python `s.replace(",", ".")`. -/
def pyCommaToDot (s : String) : String :=
  ⟨s.data.map (fun c => if c = ',' then '.' else c)⟩

/-- Truthiness of a Python `Optional[str]`: `None` and `""` are falsy. -/
def pyFalsy : Option String → Bool
  | none => true
  | some s => s = ""

/-- Python `a or b` where `a : Optional[str]` and `b` is a plain string. -/
def pyOrStr (a : Option String) (b : String) : String :=
  match a with
  | none => b
  | some s => if s = "" then b else s

/-- Python `a or None` for an `Optional[str]` (collapses `""` to `None`). -/
def pyOrNone (a : Option String) : Option String :=
  match a with
  | none => none
  | some s => if s = "" then none else some s

/-- Numeric value of a digit list (most significant first). -/
def digitsVal (l : List Char) : ℕ :=
  l.foldl (fun a c => a * 10 + (c.toNat - 48)) 0

/-- Model of CPython `float(s)` restricted to plain decimal notation:
optional sign, an integer part and an optional `.`-separated fractional part,
at least one digit overall.  Exponents, `inf`, `nan` and other exotic forms
are treated as unparsable (`none`); the numeric feed fields only carry
plain decimals.  Returns the exact rational value. -/
def pyFloat (s : String) : Option ℚ :=
  let cs := s.data
  let sign : ℚ := if cs.head? = some '-' then -1 else 1
  let cs := if cs.head? = some '-' || cs.head? = some '+' then cs.tail else cs
  let ip := cs.takeWhile Char.isDigit
  let rest := cs.drop ip.length
  match rest with
  | [] => if ip = [] then none else some (sign * (digitsVal ip : ℚ))
  | '.' :: fp =>
    if fp.all Char.isDigit && (ip ≠ [] || fp ≠ []) then
      some (sign * ((digitsVal ip : ℚ) + (digitsVal fp : ℚ) / (10 : ℚ) ^ fp.length))
    else none
  | _ => none

/-- Python `int(x)` on a float value: truncation toward zero. -/
def pyTrunc (q : ℚ) : ℤ :=
  if q < 0 then ⌈q⌉ else ⌊q⌋

/-- Model of Python `int(float(s))` under a `try/except` that yields `None`
on any parse failure. -/
def pyIntFloat (s : String) : Option ℤ :=
  (pyFloat s).map pyTrunc

/-- Round-half-to-even on ℚ, the tie rule used by Python `round`. -/
def roundHalfEven (q : ℚ) : ℤ :=
  let n := ⌊q⌋
  let r := q - (n : ℚ)
  if r < 1 / 2 then n
  else if (1 : ℚ) / 2 < r then n + 1
  else if n % 2 = 0 then n else n + 1

/-- Model of Python `round(x, 2)`: half-even rounding to two decimal places
(on the exact rational value of the price). -/
def round2 (q : ℚ) : ℚ :=
  (roundHalfEven (q * 100) : ℚ) / 100

/-! ### Offer elements

An `<offer>` XML element, as consumed by `parse_offer_elem`
(src/prom_updater.py lines 57-94), is abstracted by its two lookup
functions: `findtext` (text of the first child with a given tag, `none`
when the tag is absent) and `attr` (attribute lookup, `elem.get`). -/

structure XmlOffer where
  findtext : String → Option String
  attr : String → Option String

/-- Result triple of `parse_offer_elem`: `(vendor_code, price, quantity)`. -/
structure ParsedOffer where
  vendor_code : Option String
  price : Option ℚ
  qty : Option ℤ
  deriving DecidableEq, Repr

/-- The first tag in `tags` whose text is truthy and strips to something
non-empty (the Python pattern `v = elem.findtext(tag); if v and v.strip():`).
Returns the raw (unstripped) text. -/
def firstNonEmptyText (e : XmlOffer) : List String → Option String
  | [] => none
  | t :: ts =>
    match e.findtext t with
    | none => firstNonEmptyText e ts
    | some s => if s ≠ "" ∧ pyStrip s ≠ "" then some s else firstNonEmptyText e ts

/-- Tokens Python treats as an affirmative `available` attribute
(src/prom_updater.py line 93). -/
def availTokens : List String := ["true", "1", "yes", "available", "in_stock"]

/-- Embedding of `parse_offer_elem` (src/prom_updater.py lines 57-94).

* vendor code: first of `vendorCode`, `article`, `sku` with non-blank text
  (stripped); else the `id` attribute (`or None` collapses `""`).
* price: `float(ptext.strip().replace(",", "."))` when the `price` text is
  truthy, `None` on a parse failure.
* quantity: the first of `quantity`, `stock_quantity`, `count`,
  `quantity_in_stock` with non-blank text is parsed by `int(float(...))`
  (the loop `break`s there even when parsing fails); only when that leaves
  `None` is the `available` attribute consulted, mapping affirmative tokens
  to 1 and everything else to 0. -/
def parse_offer_elem (e : XmlOffer) : ParsedOffer :=
  let vendor_code :=
    match (firstNonEmptyText e ["vendorCode", "article", "sku"]).map pyStrip with
    | some s => some s
    | none => pyOrNone (e.attr "id")
  let price :=
    match e.findtext "price" with
    | none => none
    | some ptext =>
      if ptext = "" then none
      else pyFloat (pyCommaToDot (pyStrip ptext))
  let qty0 :=
    (firstNonEmptyText e ["quantity", "stock_quantity", "count", "quantity_in_stock"]).bind
      (fun s => pyIntFloat (pyStrip s))
  let qty :=
    match qty0 with
    | some v => some v
    | none =>
      match e.attr "available" with
      | none => none
      | some av => some (if pyLower (pyStrip av) ∈ availTokens then (1 : ℤ) else 0)
  ⟨vendor_code, price, qty⟩

/-- A feed offer record as built by `fetch_feed` (src/prom_updater.py lines
110-118): `{"vendor_code": vc, "price": price, "quantity": qty or 0}`. -/
structure Offer where
  vendor_code : String
  price : Option ℚ
  quantity : ℤ
  deriving DecidableEq, Repr

/-- Embedding of the offer-collection loop of `fetch_feed`
(src/prom_updater.py lines 110-118): keep elements whose parsed vendor code
is truthy, defaulting a missing quantity signal to `0`. -/
def fetch_feed_offers (elems : List XmlOffer) : List Offer :=
  elems.filterMap (fun e =>
    let p := parse_offer_elem e
    match p.vendor_code with
    | none => none
    | some vc => if vc = "" then none else some ⟨vc, p.price, p.qty.getD 0⟩)

/-! ### The prom product map and the diff -/

/-- One value of the map built by `get_prom_products_map`
(src/prom_updater.py lines 279-284): internal id, price and quantity. -/
structure PromItem where
  id : Option ℤ
  price : ℚ
  quantity : ℤ
  deriving DecidableEq, Repr

/-- Embedding of `needs_update` (src/prom_updater.py lines 299-321): both
prices are rounded to two decimals, a missing feed price counts as `0.0`,
a missing feed quantity as `0`; the item needs an update iff the rounded
prices or the quantities differ. -/
def needs_update (item : PromItem) (feedPrice : Option ℚ) (feedQty : Option ℤ) : Bool :=
  let prom_price := round2 item.price
  let prom_qty := item.quantity
  let feed_price_r := round2 (feedPrice.getD 0)
  let feed_qty_i := feedQty.getD 0
  feed_price_r ≠ prom_price || feed_qty_i ≠ prom_qty

/-- A payload entry formed in `main` (src/prom_updater.py lines 415-424).
`price` is `none` when the `"price"` key is absent; the
`quantity_in_stock`, `presence` and `presence_sure` keys are always set. -/
structure UpdEntry where
  id : Option ℤ
  price : Option ℚ
  quantity_in_stock : ℤ
  presence : String
  presence_sure : Bool
  deriving DecidableEq, Repr

/-- Model of `prom_map.get(vc)` over an association-list form of the map. -/
def promLookup (pm : List (String × PromItem)) (vc : String) : Option PromItem :=
  (pm.find? (fun p => p.1 = vc)).map (fun p => p.2)

/-- Embedding of the update-building loop of `main` (src/prom_updater.py
lines 404-425): skip offers with a falsy vendor code, skip offers with no
prom-map entry, keep an offer only when `needs_update` holds, and then form
the payload entry — `price` only when present, `quantity_in_stock`,
`presence` and `presence_sure` always. -/
def buildUpdates (offers : List Offer) (pm : List (String × PromItem)) : List UpdEntry :=
  offers.filterMap (fun o =>
    if o.vendor_code = "" then none
    else
      match promLookup pm o.vendor_code with
      | none => none
      | some item =>
        if needs_update item o.price (some o.quantity) then
          let q := o.quantity
          some { id := item.id
               , price := o.price.map round2
               , quantity_in_stock := q
               , presence := if q > 0 then "available" else "not_available"
               , presence_sure := true }
        else none)

/-! ### Identity derivation (src/feed_parser.py lines 141-143) -/

/-- Hexadecimal digits an md5 hex digest is made of. -/
def hexChars : List Char :=
  "0123456789abcdef".data

/-- What `hashlib.md5(...).hexdigest()` returns: 32 lowercase hex chars. -/
def isMd5Hex (s : String) : Bool :=
  s.length = 32 && s.data.all (fun c => decide (c ∈ hexChars))

/-- Embedding of `make_unique_code` (src/feed_parser.py lines 141-143):
`base = (vendor_code or offer_id or md5(tostring(elem)).hexdigest()).strip()`
then `f"{prefix}_{base}"`.  The element only enters through its digest, so
the digest string stands in for the element argument; `pref` models the
`prefix` parameter. -/
def make_unique_code (pref : String) (offer_id vendor_code : Option String)
    (digest : String) : String :=
  let base := pyStrip (pyOrStr vendor_code (pyOrStr offer_id digest))
  pref ++ "_" ++ base

/-- The recognized feed-tag pattern `f<digits>_...` of the spec (§4.1 step 2):
a leading `f`, one or more digits, then `_`.  Stated from the words of the spec —
`make_unique_code` in the source performs no such test. -/
def specFeedPat (s : String) : Bool :=
  match s.data with
  | 'f' :: rest =>
    (rest.takeWhile Char.isDigit) ≠ [] &&
      (rest.dropWhile Char.isDigit).head? = some '_'
  | _ => false

/-! ### Batch dispatch (src/prom_updater.py lines 325-378) -/

/-- Embedding of the chunking expression of `send_updates_async`
(src/prom_updater.py line 364):
`[updates[i:i + BATCH_SIZE] for i in range(0, len(updates), BATCH_SIZE)]`.
Python raises on a zero step, so the model is only meaningful for `0 < b`
(it returns `[]` on `b = 0` to stay total). -/
def chunkList (b : ℕ) (l : List α) : List (List α) :=
  if b = 0 then []
  else (List.range' 0 ((l.length + b - 1) / b) b).map (fun i => (l.drop i).take b)

/-- Outcome of one attempt as seen by `send_batch`: an HTTP status with the
response text, or a raised exception (network timeout etc.). -/
inductive Resp where
  | status (code : ℕ) (text : String)
  | exn
  deriving DecidableEq, Repr

/-- The statuses `send_batch` retries on (src/prom_updater.py line 335). -/
def isTransientCode (c : ℕ) : Bool :=
  c = 429 || c = 500 || c = 502 || c = 503 || c = 504

/-- A response the retry loop does not stop on: a transient status or an
exception. -/
def isTransientResp : Resp → Bool
  | .status c _ => isTransientCode c
  | .exn => true

/-- What a `send_batch` run did: the returned pair `(ok, text)`, how many
POST attempts were made, and the backoff waits slept (in seconds, in
order). -/
structure SendOutcome where
  ok : Bool
  text : Option String
  attempts : ℕ
  waits : List ℕ
  deriving DecidableEq, Repr

/-- The body of the `while retries <= MAX_RETRIES` loop of `send_batch`
(src/prom_updater.py lines 326-350), with the environment abstracted as
`responses : ℕ → Resp` (the outcome of the attempt made at retry counter
`k`).  `fuel` is the number of loop iterations still allowed,
`maxRetries + 1 - retries`; when it reaches zero the loop exits and the
function returns `(False, None)`.  Status 200 returns `(True, text)`; a
transient status or an exception sleeps `2 ** retries` and increments
`retries`; any other status returns `(False, text)` at once. -/
def sendBatchGo (responses : ℕ → Resp) : ℕ → ℕ → SendOutcome
  | 0, _ => ⟨false, none, 0, []⟩
  | fuel + 1, retries =>
    match responses retries with
    | .status c t =>
      if c = 200 then ⟨true, some t, 1, []⟩
      else if isTransientCode c then
        let rest := sendBatchGo responses fuel (retries + 1)
        ⟨rest.ok, rest.text, rest.attempts + 1, 2 ^ retries :: rest.waits⟩
      else ⟨false, some t, 1, []⟩
    | .exn =>
      let rest := sendBatchGo responses fuel (retries + 1)
      ⟨rest.ok, rest.text, rest.attempts + 1, 2 ^ retries :: rest.waits⟩

/-- Embedding of `send_batch` (src/prom_updater.py lines 325-350): the loop
starts at `retries = 0` and runs while `retries <= maxRetries`, so at most
`maxRetries + 1` attempts are made. -/
def sendBatch (responses : ℕ → Resp) (maxRetries : ℕ) : SendOutcome :=
  sendBatchGo responses (maxRetries + 1) 0

/-! ### Change detection (src/change_detector.py lines 49-65) -/

/-- Model of the lookup `old_state.get(url).get(fingerprint)`, defaulting to
the empty string, over an association-list
model of the persisted state. -/
def fpLookup (st : List (String × String)) (url : String) : String :=
  match st.find? (fun p => p.1 = url) with
  | some p => p.2
  | none => ""

/-- Embedding of the `changed` accumulation of `detect_changes`
(src/change_detector.py lines 55-64): `fetched` lists each URL with the
fingerprint the current fetch produced (ETag, else Last-Modified, else body
hash, else `""` when everything failed); a URL whose stored fingerprint
differs from the current one sets the flag. -/
def detectChanged (old fetched : List (String × String)) : Bool :=
  fetched.foldl (fun acc p => acc || (fpLookup old p.1 != p.2)) false

/-! ## Theorems -/

lemma chunkList_nil (b : ℕ) : chunkList b ([] : List α) = [] := by
  unfold chunkList
  split
  · rfl
  · rename_i h
    rw [List.length_nil, Nat.div_eq_of_lt (by omega)]
    rfl

lemma chunkList_cons (b : ℕ) (hb : 0 < b) (l : List α) (hl : l ≠ []) :
    chunkList b l = l.take b :: chunkList b (l.drop b) := by
  have hlen : 1 ≤ l.length := List.length_pos.mpr hl
  unfold chunkList
  rw [if_neg (by omega), if_neg (by omega)]
  have hA : (l.length + b - 1) / b = (l.length - 1) / b + 1 := by
    have h1 : l.length + b - 1 = (l.length - 1) + b := by omega
    rw [h1, Nat.add_div_right _ hb]
  have hB : ((l.drop b).length + b - 1) / b = (l.length - 1) / b := by
    rw [List.length_drop]
    rcases le_or_lt b l.length with h | h
    · have h2 : l.length - b + b - 1 = l.length - 1 := by omega
      rw [h2]
    · have h2 : l.length - b = 0 := by omega
      rw [h2, Nat.zero_add, Nat.div_eq_of_lt (by omega), Nat.div_eq_of_lt (by omega)]
  rw [hA, hB, List.range'_succ]
  simp only [List.map_cons, List.drop_zero, Nat.zero_add]
  congr 1
  have hsh := List.map_add_range' b 0 ((l.length - 1) / b) b
  rw [Nat.add_zero] at hsh
  rw [← hsh, List.map_map]
  apply List.map_congr_left
  intro i _
  simp only [Function.comp_apply, List.drop_drop]

lemma chunkList_flatten_bounded (b : ℕ) (hb : 0 < b) :
    ∀ (n : ℕ) (l : List α), l.length ≤ n → (chunkList b l).flatten = l := by
  intro n
  induction n with
  | zero =>
    intro l hl
    have h0 : l = [] := by
      cases l with
      | nil => rfl
      | cons x xs => simp at hl
    subst h0
    rw [chunkList_nil]
    rfl
  | succ n ih =>
    intro l hl
    rcases eq_or_ne l [] with rfl | hne
    · rw [chunkList_nil]
      rfl
    · rw [chunkList_cons b hb l hne, List.flatten_cons,
        ih (l.drop b) (by
          have : 1 ≤ l.length := List.length_pos.mpr hne
          rw [List.length_drop]
          omega)]
      exact List.take_append_drop b l

lemma chunkList_flatten (b : ℕ) (hb : 0 < b) (l : List α) :
    (chunkList b l).flatten = l :=
  chunkList_flatten_bounded b hb l.length l le_rfl

lemma chunkList_length (b : ℕ) (hb : 0 < b) (l : List α) :
    (chunkList b l).length = (l.length + b - 1) / b := by
  unfold chunkList
  rw [if_neg (by omega), List.length_map, List.length_range']

/-- The value `(n + b - 1) / b` is the ceiling of `n / b`. -/
lemma ceil_div_nat (n b : ℕ) (hb : 0 < b) :
    ⌈(n : ℚ) / (b : ℚ)⌉₊ = (n + b - 1) / b := by
  have hbq : (0 : ℚ) < (b : ℚ) := by exact_mod_cast hb
  have hdm := Nat.div_add_mod (n + b - 1) b
  have hmlt := Nat.mod_lt (n + b - 1) hb
  apply le_antisymm
  · rw [Nat.ceil_le, div_le_iff₀ hbq]
    have key : n ≤ ((n + b - 1) / b) * b := by
      set k := (n + b - 1) / b with hk
      set m := b * k with hm
      rw [Nat.mul_comm]
      omega
    exact_mod_cast key
  · rcases Nat.eq_zero_or_pos ((n + b - 1) / b) with h0 | hpos
    · rw [h0]
      exact Nat.zero_le _
    · have hstep : (n + b - 1) / b - 1 < ⌈(n : ℚ) / (b : ℚ)⌉₊ := by
        rw [Nat.lt_ceil, lt_div_iff₀ hbq]
        have hn1 : 1 ≤ n := by
          by_contra hn
          have h0 : n = 0 := by omega
          subst h0
          rw [Nat.zero_add, Nat.div_eq_of_lt (by omega)] at hpos
          omega
        have key : ((n + b - 1) / b - 1) * b < n := by
          set k := (n + b - 1) / b with hk
          set m := b * k with hm
          have hsub : (k - 1) * b = k * b - b := by
            rw [Nat.sub_mul, Nat.one_mul]
          rw [hsub, Nat.mul_comm]
          omega
        exact_mod_cast key
      omega

/-- C7: for batch size `B > 0` and a non-empty update list of length `N`,
the chunking of `send_updates_async` produces exactly `⌈N / B⌉` batches,
the batch sizes sum to `N`, and concatenating the batches in order gives
back the update list. -/
theorem batch_completeness {α : Type} (updates : List α) (b : ℕ)
    (hb : 0 < b) (_hne : updates ≠ []) :
    (chunkList b updates).length = ⌈(updates.length : ℚ) / (b : ℚ)⌉₊ ∧
    ((chunkList b updates).map List.length).sum = updates.length ∧
    (chunkList b updates).flatten = updates := by
  refine ⟨?_, ?_, chunkList_flatten b hb updates⟩
  · rw [chunkList_length b hb, ceil_div_nat _ _ hb]
  · rw [← List.length_flatten, chunkList_flatten b hb]

/-- Witness for `batch_completeness`: five updates in batches of two give
three batches, `[1,2] [3,4] [5]`. -/
theorem batch_completeness_witness :
    (chunkList 2 [1, 2, 3, 4, 5]).length = ⌈((5 : ℕ) : ℚ) / ((2 : ℕ) : ℚ)⌉₊ ∧
    ((chunkList 2 [1, 2, 3, 4, 5]).map List.length).sum = 5 ∧
    (chunkList 2 [1, 2, 3, 4, 5]).flatten = [1, 2, 3, 4, 5] := by
  have h := batch_completeness [1, 2, 3, 4, 5] 2 (by omega) (by simp)
  simpa using h

lemma sendBatchGo_transient (responses : ℕ → Resp) :
    ∀ (fuel start : ℕ),
      (∀ k, start ≤ k → k < start + fuel → isTransientResp (responses k) = true) →
      sendBatchGo responses fuel start =
        ⟨false, none, fuel, (List.range' start fuel).map (fun k => 2 ^ k)⟩ := by
  intro fuel
  induction fuel with
  | zero =>
    intro start _
    rfl
  | succ fuel ih =>
    intro start h
    have hstart : isTransientResp (responses start) = true :=
      h start le_rfl (by omega)
    have hrest := ih (start + 1) (fun k hk1 hk2 => h k (by omega) (by omega))
    rw [List.range'_succ]
    unfold sendBatchGo
    cases hresp : responses start with
    | status c t =>
      rw [hresp] at hstart
      simp only [isTransientResp] at hstart
      have hc200 : ¬c = 200 := by
        intro hc
        subst hc
        simp [isTransientCode] at hstart
      simp [hc200, hstart, hrest, List.map_cons]
    | exn =>
      simp [hrest, List.map_cons]

/-- C6: for every batch whose every attempt fails transiently (429/5xx or a
raised exception), `send_batch` makes exactly `MAX_RETRIES + 1` attempts —
the initial one plus `MAX_RETRIES` retries — with exponential backoff waits
`2^0, …, 2^MAX_RETRIES`, then returns `(False, None)` (recorded as failed);
and a non-transient non-200 status is returned as failed after a single
attempt, with no retry and no backoff. -/
theorem send_batch_retry_bound (responses : ℕ → Resp) (m : ℕ) :
    ((∀ k, k ≤ m → isTransientResp (responses k) = true) →
      sendBatch responses m =
        ⟨false, none, m + 1, (List.range (m + 1)).map (fun k => 2 ^ k)⟩) ∧
    (∀ c t, responses 0 = Resp.status c t → isTransientCode c = false → c ≠ 200 →
      sendBatch responses m = ⟨false, some t, 1, []⟩) := by
  constructor
  · intro h
    unfold sendBatch
    rw [sendBatchGo_transient responses (m + 1) 0 (fun k _ hk2 => h k (by omega)),
      List.range_eq_range']
  · intro c t hresp htrans hc200
    unfold sendBatch sendBatchGo
    rw [hresp]
    simp only [if_neg hc200, htrans]
    rfl

/-- Witness for `send_batch_retry_bound`: with `MAX_RETRIES = 2` and every
attempt raising, the batch fails after 3 attempts with waits 1, 2, 4
seconds; with `MAX_RETRIES = 3` and a first response of HTTP 404, the batch
fails after one attempt with no waits. -/
theorem send_batch_retry_bound_witness :
    sendBatch (fun _ => Resp.exn) 2 = ⟨false, none, 3, [1, 2, 4]⟩ ∧
    sendBatch (fun _ => Resp.status 404 "nf") 3 = ⟨false, some "nf", 1, []⟩ := by
  constructor
  · have h := (send_batch_retry_bound (fun _ => Resp.exn) 2).1 (fun k _ => rfl)
    rw [h]
    decide
  · exact (send_batch_retry_bound (fun _ => Resp.status 404 "nf") 3).2 404 "nf" rfl
      (by decide) (by decide)

lemma foldl_or_eq_any {α : Type} (f : α → Bool) :
    ∀ (l : List α) (acc : Bool),
      l.foldl (fun a p => a || f p) acc = (acc || l.any f) := by
  intro l
  induction l with
  | nil =>
    intro acc
    simp
  | cons x xs ih =>
    intro acc
    simp only [List.foldl_cons, List.any_cons, ih (acc || f x), Bool.or_assoc]

/-- C8 fails as stated: a URL absent from the persisted state whose current
fetch produced no usable validator at all (empty ETag and Last-Modified,
body hashing failed — fingerprint `""`) is NOT reported as changed, because
the stored-side default is also `""`. -/
theorem no_fingerprint_changed_cex :
    detectChanged [] [("u", "")] = false := by
  decide

/-- C8 amended: a feed URL with no stored fingerprint is reported as changed
provided the current fetch produced a non-empty fingerprint; with an empty
current fingerprint the comparison `"" != ""` fails and the feed is not
flagged. -/
theorem no_fingerprint_changed (old fetched : List (String × String))
    (url fp : String) (hold : ∀ p ∈ old, p.1 ≠ url) (hfp : fp ≠ "")
    (hmem : (url, fp) ∈ fetched) :
    detectChanged old fetched = true := by
  unfold detectChanged
  rw [foldl_or_eq_any, Bool.false_or, List.any_eq_true]
  refine ⟨(url, fp), hmem, ?_⟩
  have hfind : old.find? (fun p => p.1 = url) = none := by
    rw [List.find?_eq_none]
    intro p hp
    simp only [decide_eq_true_eq]
    exact hold p hp
  unfold fpLookup
  rw [hfind]
  exact bne_iff_ne.mpr (Ne.symm hfp)

/-- Witness for `no_fingerprint_changed`: state holds only `"v"`, the fetch
produced fingerprint `"abc"` for the unseen URL `"u"`. -/
theorem no_fingerprint_changed_witness :
    detectChanged [("v", "x")] [("u", "abc")] = true := by
  exact no_fingerprint_changed [("v", "x")] [("u", "abc")] "u" "abc"
    (by decide) (by decide) (by simp)

lemma roundHalfEven_intCast (n : ℤ) : roundHalfEven ((n : ℚ)) = n := by
  unfold roundHalfEven
  rw [Int.floor_intCast]
  norm_num

lemma round2_intCast (n : ℤ) : round2 ((n : ℚ)) = (n : ℚ) := by
  unfold round2
  have h : ((n : ℚ)) * 100 = (((n * 100 : ℤ)) : ℚ) := by
    push_cast
    ring
  rw [h, roundHalfEven_intCast]
  push_cast
  ring

lemma round2_zero : round2 0 = 0 := by
  have h := round2_intCast 0
  simpa using h

/-- C9: a stored prom item whose rounded price is not `0.00` is always
flagged by `needs_update` when the feed offers no parsable price
(`feed_price = None` is compared as `0.0`), even with equal quantities. -/
theorem none_price_needs_update (item : PromItem)
    (h : round2 item.price ≠ 0) :
    needs_update item none (some item.quantity) = true := by
  unfold needs_update
  simp only [Option.getD_none, Option.getD_some, round2_zero]
  have h0 : (0 : ℚ) ≠ round2 item.price := Ne.symm h
  simp [h0]

/-- Witness for `none_price_needs_update`: prom price 5 (rounds to 5 ≠ 0),
equal quantities 3, no feed price — still reported as needing an update. -/
theorem none_price_needs_update_witness :
    needs_update ⟨some 1, 5, 3⟩ none (some 3) = true := by
  have h5 : round2 ((5 : ℚ)) = 5 := by
    simpa using round2_intCast 5
  exact none_price_needs_update ⟨some 1, 5, 3⟩ (by rw [h5]; norm_num)

lemma dropWhile_all_false {p : Char → Bool} :
    ∀ l : List Char, (∀ c ∈ l, p c = false) → l.dropWhile p = l := by
  intro l h
  cases l with
  | nil => rfl
  | cons x xs =>
    rw [List.dropWhile_cons, h x (List.mem_cons_self x xs)]
    simp

lemma pyStrip_eq_self (s : String) (h : ∀ c ∈ s.data, isPySpace c = false) :
    pyStrip s = s := by
  obtain ⟨l⟩ := s
  unfold pyStrip
  simp only at h ⊢
  rw [dropWhile_all_false l h,
    dropWhile_all_false l.reverse (fun c hc => h c (List.mem_reverse.mp hc)),
    List.reverse_reverse]

lemma hexChars_not_space : ∀ c ∈ hexChars, isPySpace c = false := by
  decide

/-- C2 fails as stated: `make_unique_code` performs no feed-tag check, so a
vendor code already matching `f<digits>_...` (here `"f1_abc"`) is not
returned verbatim — a second tag is prepended, producing `"f2_f1_abc"`. -/
theorem id_retag_cex :
    specFeedPat "f1_abc" = true ∧
    make_unique_code "f2" none (some "f1_abc") "d41d8cd98f00b204e9800998ecf8427e"
      = "f2_f1_abc" ∧
    "f2_f1_abc" ≠ "f1_abc" := by
  decide

/-- C2 amended: identity derivation unconditionally prepends the feed tag.
For any truthy vendor code — whether or not it already matches
`f<digits>_...` — the result is `{tag}_{code.strip()}`, never the input
verbatim. -/
theorem id_always_retagged (pref vc : String) (oid : Option String) (d : String)
    (hvc : vc ≠ "") :
    make_unique_code pref oid (some vc) d = pref ++ "_" ++ pyStrip vc := by
  unfold make_unique_code pyOrStr
  simp [hvc]

/-- Witness for `id_always_retagged` at the already-tagged code `"f1_abc"`. -/
theorem id_always_retagged_witness :
    make_unique_code "f2" none (some "f1_abc") "d41d8cd98f00b204e9800998ecf8427e"
      = "f2" ++ "_" ++ pyStrip "f1_abc" := by
  exact id_always_retagged "f2" "f1_abc" none "d41d8cd98f00b204e9800998ecf8427e"
    (by decide)

/-- C10 fails as stated: a whitespace-only vendor code is truthy, so the md5
fallback is not taken, yet `.strip()` empties it — the offer gets the
degenerate identifier `"f1_"` whose base is empty. -/
theorem make_unique_code_base_cex :
    make_unique_code "f1" none (some " ") "d41d8cd98f00b204e9800998ecf8427e"
      = "f1_" := by
  decide

/-- C10 amended: `make_unique_code` is total and always returns
`{tag}_{base}`; when both `vendor_code` and `offer_id` are falsy (absent or
empty) the base is the md5 hex digest of the element, which is non-empty —
but a whitespace-only code yields an empty base, so the non-empty-base part
of the claim only holds for the fallback. -/
theorem make_unique_code_fallback (pref : String) (oid vc : Option String)
    (d : String) (hv : pyFalsy vc = true) (ho : pyFalsy oid = true)
    (hd : isMd5Hex d = true) :
    make_unique_code pref oid vc d = pref ++ "_" ++ d ∧ d ≠ "" := by
  have hsel : pyOrStr vc (pyOrStr oid d) = d := by
    have hinner : pyOrStr oid d = d := by
      cases oid with
      | none => rfl
      | some s =>
        unfold pyFalsy at ho
        simp only [decide_eq_true_eq] at ho
        subst ho
        simp [pyOrStr]
    cases vc with
    | none => exact hinner
    | some s =>
      unfold pyFalsy at hv
      simp only [decide_eq_true_eq] at hv
      subst hv
      show pyOrStr oid d = d
      exact hinner
  unfold isMd5Hex at hd
  rw [Bool.and_eq_true] at hd
  obtain ⟨hlen, hall⟩ := hd
  have hchars : ∀ c ∈ d.data, isPySpace c = false := by
    intro c hc
    rw [List.all_eq_true] at hall
    have hmem := hall c hc
    rw [decide_eq_true_eq] at hmem
    exact hexChars_not_space c hmem
  constructor
  · unfold make_unique_code
    rw [hsel, pyStrip_eq_self d hchars]
  · intro hempty
    subst hempty
    simp at hlen

/-- Witness for `make_unique_code_fallback`: no vendor code, no offer id,
digest of the empty input. -/
theorem make_unique_code_fallback_witness :
    make_unique_code "f3" none none "d41d8cd98f00b204e9800998ecf8427e"
      = "f3" ++ "_" ++ "d41d8cd98f00b204e9800998ecf8427e" ∧
    "d41d8cd98f00b204e9800998ecf8427e" ≠ "" := by
  exact make_unique_code_fallback "f3" none none "d41d8cd98f00b204e9800998ecf8427e"
    (by decide) (by decide) (by decide)

/-- C3 fails as stated: a feed offer whose canonical id has no previous
prom-map entry is skipped by the update loop (`if not prom_item: continue`),
so a genuinely new item produces an empty change set instead of being
included. -/
theorem new_items_cex :
    promLookup [] "x" = none ∧
    buildUpdates [⟨"x", some 5, 1⟩] [] = [] := by
  constructor
  · rfl
  · rfl

/-- C3 amended: a snapshot with no corresponding previous entry is always
EXCLUDED — if no offer has a prom-map entry, the change set is empty. -/
theorem new_items_excluded (offers : List Offer) (pm : List (String × PromItem))
    (h : ∀ o ∈ offers, promLookup pm o.vendor_code = none) :
    buildUpdates offers pm = [] := by
  induction offers with
  | nil => rfl
  | cons o os ih =>
    have ho := h o (List.mem_cons_self o os)
    have hrest := ih (fun x hx => h x (List.mem_cons_of_mem o hx))
    unfold buildUpdates at hrest ⊢
    rw [List.filterMap_cons]
    by_cases hvc : o.vendor_code = ""
    · rw [if_pos hvc]
      exact hrest
    · rw [if_neg hvc, ho]
      exact hrest

/-- Witness for `new_items_excluded`: one offer `"x"`, a prom map holding
only `"y"`. -/
theorem new_items_excluded_witness :
    buildUpdates [⟨"x", some 5, 1⟩] [("y", ⟨some 2, 7, 4⟩)] = [] := by
  refine new_items_excluded [⟨"x", some 5, 1⟩] [("y", ⟨some 2, 7, 4⟩)] ?_
  intro o ho
  rw [List.mem_singleton] at ho
  subst ho
  rfl

/-- C5: when every matched offer agrees with its stored prom item — equal
prices after rounding both sides to two decimals (a missing feed price
counting as `0.0`) and equal quantities — the update loop produces an empty
change set: `diff(X, X) = ∅`. -/
theorem noop_diff (offers : List Offer) (pm : List (String × PromItem))
    (h : ∀ o ∈ offers, ∀ it, promLookup pm o.vendor_code = some it →
      round2 (o.price.getD 0) = round2 it.price ∧ o.quantity = it.quantity) :
    buildUpdates offers pm = [] := by
  induction offers with
  | nil => rfl
  | cons o os ih =>
    have hrest := ih (fun x hx => h x (List.mem_cons_of_mem o hx))
    unfold buildUpdates at hrest ⊢
    rw [List.filterMap_cons]
    by_cases hvc : o.vendor_code = ""
    · rw [if_pos hvc]
      exact hrest
    · rw [if_neg hvc]
      cases hlk : promLookup pm o.vendor_code with
      | none => exact hrest
      | some it =>
        obtain ⟨hp, hq⟩ := h o (List.mem_cons_self o os) it hlk
        have hnu : needs_update it o.price (some o.quantity) = false := by
          unfold needs_update
          simp only [Option.getD_some, hp, hq]
          simp
        simp only [hnu, Bool.false_eq_true, if_false]
        exact hrest

/-- Witness for `noop_diff`: one offer matching the stored snapshot exactly
(price 2, quantity 3) produces no update. -/
theorem noop_diff_witness :
    buildUpdates [⟨"a", some 2, 3⟩] [("a", ⟨some 9, 2, 3⟩)] = [] := by
  refine noop_diff [⟨"a", some 2, 3⟩] [("a", ⟨some 9, 2, 3⟩)] ?_
  intro o ho it hit
  rw [List.mem_singleton] at ho
  subst ho
  have hsome : promLookup [("a", (⟨some 9, 2, 3⟩ : PromItem))] "a" = some ⟨some 9, 2, 3⟩ := rfl
  rw [hsome] at hit
  rw [Option.some_inj] at hit
  subst hit
  exact ⟨rfl, rfl⟩

/-- An offer element with a vendor code and a price but no availability
signal at all: no quantity-like tag and no `available` attribute. -/
def cexElemC1 : XmlOffer :=
  { findtext := fun t =>
      if t = "vendorCode" then some "x"
      else if t = "price" then some "5" else none
  , attr := fun _ => none }

/-- An offer element carrying both an explicit `available="false"` attribute
and a numeric `<quantity>5</quantity>` field. -/
def cexElemC4 : XmlOffer :=
  { findtext := fun t => if t = "quantity" then some "5" else none
  , attr := fun a => if a = "available" then some "false" else none }

/-- C1 fails as stated: an offer with no availability signal (parsed
quantity `None`, the no-confidence case) that is picked up because of a
price difference (feed 5 vs stored 1) is dispatched with
`quantity_in_stock = 0`, `presence = "not_available"` and
`presence_sure = True` — the payload entry does carry presence and quantity
fields, synthesized from the defaulted quantity `0`. -/
theorem confidence_gating_cex :
    (parse_offer_elem cexElemC1).qty = none ∧
    buildUpdates (fetch_feed_offers [cexElemC1]) [("x", ⟨some 7, 1, 0⟩)] =
      [{ id := some 7, price := some (round2 5), quantity_in_stock := 0
       , presence := "not_available", presence_sure := true }] := by
  have hqty : (parse_offer_elem cexElemC1).qty = none := by decide
  have hvc : (parse_offer_elem cexElemC1).vendor_code = some "x" := by decide
  have hprice : (parse_offer_elem cexElemC1).price = some 5 := by
    simp +decide [parse_offer_elem, cexElemC1, pyFloat, pyStrip, pyCommaToDot, digitsVal]
  have h5 : round2 ((5 : ℚ)) = 5 := by simpa using round2_intCast 5
  have h1 : round2 ((1 : ℚ)) = 1 := by simpa using round2_intCast 1
  have hfetch : fetch_feed_offers [cexElemC1] =
      [⟨"x", (parse_offer_elem cexElemC1).price, 0⟩] := by
    unfold fetch_feed_offers
    rw [List.filterMap_cons]
    simp [hvc, hqty]
  refine ⟨hqty, ?_⟩
  rw [hfetch, hprice]
  have hnu : needs_update ⟨some 7, 1, 0⟩ (some 5) (some 0) = true := by
    unfold needs_update
    simp only [Option.getD_some, h5, h1]
    norm_num
  unfold buildUpdates
  rw [List.filterMap_cons]
  have hlk : promLookup [("x", (⟨some 7, 1, 0⟩ : PromItem))] "x" = some ⟨some 7, 1, 0⟩ := rfl
  simp [hlk, hnu]

/-- C1 amended: the pipeline performs no confidence gating — every
dispatched payload entry carries `presence_sure = True` and a `presence`
value synthesized from the (defaulted) quantity, whatever the availability
signal was; `quantity_in_stock` is likewise always present (it is a total
field of every entry built). -/
theorem payload_always_carries_presence (offers : List Offer)
    (pm : List (String × PromItem)) :
    ∀ u ∈ buildUpdates offers pm,
      u.presence_sure = true ∧
      u.presence = (if u.quantity_in_stock > 0 then "available" else "not_available") := by
  intro u hu
  unfold buildUpdates at hu
  rw [List.mem_filterMap] at hu
  obtain ⟨o, _, hfo⟩ := hu
  by_cases hvc : o.vendor_code = ""
  · rw [if_pos hvc] at hfo
    exact absurd hfo (by simp)
  · rw [if_neg hvc] at hfo
    cases hlk : promLookup pm o.vendor_code with
    | none =>
      rw [hlk] at hfo
      exact absurd hfo (by simp)
    | some item =>
      rw [hlk] at hfo
      by_cases hnu : needs_update item o.price (some o.quantity) = true
      · simp only [hnu, if_true, Option.some_inj] at hfo
        subst hfo
        exact ⟨rfl, rfl⟩
      · simp [hnu] at hfo

/-- Witness for `payload_always_carries_presence`: the entry produced for a
priced-out offer with no feed price and quantity 2. -/
theorem payload_always_carries_presence_witness :
    (⟨some 1, none, 2, "available", true⟩ : UpdEntry).presence_sure = true ∧
    (⟨some 1, none, 2, "available", true⟩ : UpdEntry).presence =
      (if (⟨some 1, none, 2, "available", true⟩ : UpdEntry).quantity_in_stock > 0
       then "available" else "not_available") := by
  have h0 : round2 ((0 : ℚ)) = 0 := round2_zero
  have h1 : round2 ((1 : ℚ)) = 1 := by simpa using round2_intCast 1
  have hnu : needs_update ⟨some 1, 1, 0⟩ none (some 2) = true := by
    unfold needs_update
    simp only [Option.getD_none, Option.getD_some, h0, h1]
    norm_num
  have hlist : buildUpdates [⟨"x", none, 2⟩] [("x", ⟨some 1, 1, 0⟩)] =
      [⟨some 1, none, 2, "available", true⟩] := by
    unfold buildUpdates
    rw [List.filterMap_cons]
    have hlk : promLookup [("x", (⟨some 1, 1, 0⟩ : PromItem))] "x" = some ⟨some 1, 1, 0⟩ := rfl
    simp [hlk, hnu]
  refine payload_always_carries_presence [⟨"x", none, 2⟩] [("x", ⟨some 1, 1, 0⟩)]
    ⟨some 1, none, 2, "available", true⟩ ?_
  rw [hlist]
  exact List.mem_singleton.mpr rfl

/-- C4 fails as stated: on an element carrying both `available="false"`
(which the claim says should win) and `<quantity>5</quantity>`, the parser
takes the numeric quantity field first — the inferred signal is 5, not the
0 the attribute would give. -/
theorem avail_priority_cex :
    cexElemC4.attr "available" = some "false" ∧
    (parse_offer_elem cexElemC4).qty = some 5 ∧
    (parse_offer_elem cexElemC4).qty ≠ some 0 := by
  have h : (parse_offer_elem cexElemC4).qty = some 5 := by
    simp +decide [parse_offer_elem, cexElemC4, firstNonEmptyText, pyIntFloat,
      pyFloat, pyStrip, digitsVal, pyTrunc]
  refine ⟨rfl, h, ?_⟩
  rw [h]
  decide

/-- C4 amended: the priority order of `parse_offer_elem` is the reverse of
the claim — whenever any quantity-like tag carries parsable text, its value
is the quantity signal and the `available` attribute is never consulted;
the attribute matters only when no quantity tag yields a value. -/
theorem quantity_tag_wins (e : XmlOffer) (s : String) (v : ℤ)
    (hs : firstNonEmptyText e ["quantity", "stock_quantity", "count", "quantity_in_stock"]
      = some s)
    (hv : pyIntFloat (pyStrip s) = some v) :
    (parse_offer_elem e).qty = some v := by
  unfold parse_offer_elem
  simp [hs, hv]

/-- Witness for `quantity_tag_wins` at the element of the counterexample:
the quantity tag text `"5"` parses to 5 and wins over `available="false"`. -/
theorem quantity_tag_wins_witness :
    (parse_offer_elem cexElemC4).qty = some 5 := by
  refine quantity_tag_wins cexElemC4 "5" 5 (by decide) ?_
  simp +decide [pyIntFloat, pyFloat, pyStrip, digitsVal, pyTrunc]

end PromSync
